import Mathlib

/-
Verification of the lssa public state transition engine and its satellite
components (gas calculator, program-deployment codec, chain-index codec,
address derivation) against a shallow embedding of the Rust sources.

Conventions of the embedding:
- Rust byte strings and byte buffers are lists of naturals, each element a
  byte value below 256; Rust strings are lists of their UTF-8 byte values.
- Machine integers are naturals; where fixed-width overflow is observable the
  wrap is written explicitly as a remainder by the corresponding power of two.
- Fallible Rust functions returning a Result are embedded as Except values.
- External collaborators whose implementation is outside the repository
  (signature scheme, Keccak, SEC1 encoding) enter as explicit function
  parameters, so every theorem quantifies over them.
-/

/-! Little-endian 32-bit words, shared by the deployment codec and the
chain-index codec. -/

/-- Little-endian byte rendering of a u32 value, as in u32::to_le_bytes. -/
def u32ToLeBytes (x : Nat) : List Nat :=
  [x % 256, x / 256 % 256, x / 65536 % 256, x / 16777216 % 256]

/-- Reassemble a u32 from its four little-endian bytes, as in
u32::from_le_bytes. -/
def u32FromLeBytes (b0 b1 b2 b3 : Nat) : Nat :=
  b0 + 256 * b1 + 65536 * b2 + 16777216 * b3

/-- Variant of u32FromLeBytes taking the list of bytes; lists whose length is
not 4 never arise at its call sites and map to 0. -/
def u32FromLeBytesList : List Nat → Nat
  | [b0, b1, b2, b3] => u32FromLeBytes b0 b1 b2 b3
  | _ => 0

namespace Gas

/-- Embedding of struct GasCalculator (src/nssa/src/gas_calculator.rs); every
field is a u64. -/
structure GasCalculator where
  gas_fee_per_byte_deploy : Nat
  gas_fee_per_input_buffer_runtime : Nat
  gas_fee_per_byte_runtime : Nat
  gas_cost_runtime : Nat
  gas_cost_deploy : Nat
  gas_limit_deploy : Nat
  gas_limit_runtime : Nat

/-- Embedding of GasCalculator::gas_deploy. The u64 product
gas_fee_per_byte_deploy * elf.len() is taken modulo 2^64 (fixed-width
semantics); the value is returned only when strictly below the deploy
limit. -/
def GasCalculator.gas_deploy (c : GasCalculator) (elf : List Nat) : Option Nat :=
  let gas := c.gas_fee_per_byte_deploy * elf.length % 18446744073709551616
  if gas < c.gas_limit_deploy then some gas else none

end Gas

namespace Deploy

/-- Error type of the codec, embedding the cases of NssaError that
Message::from_cursor can produce: the deserialization error with its message
string, and an io::Error bubbled up from a failed read_exact. -/
inductive NssaError where
  | transactionDeserializationError (msg : String)
  | ioError
  deriving DecidableEq

/-- The 22-byte domain-separation constant MESSAGE_ENCODING_PREFIX of
src/nssa/src/encoding/program_deployment_transaction.rs, written as its byte
values: 0x02 followed by the ASCII bytes of the tag string. -/
def MESSAGE_ENCODING_TAG : List Nat :=
  2 :: (("/NSSA/v0.1/TxMessage/").toList.map Char.toNat)

/-- Embedding of program_deployment_transaction::Message: just the bytecode
payload. -/
structure DeployMessage where
  bytecode : List Nat
  deriving DecidableEq

/-- Embedding of ProgramDeploymentTransaction as far as the codec uses it. -/
structure ProgramDeploymentTransaction where
  message : DeployMessage
  deriving DecidableEq

/-- Cursor::read_exact: consumes exactly n bytes or fails with an io::Error
(here .ioError) when fewer remain. Returns the bytes read and the rest. -/
def readExact (n : Nat) (bs : List Nat) : Except NssaError (List Nat × List Nat) :=
  if n ≤ bs.length then .ok (bs.take n, bs.drop n) else .error .ioError

/-- Cursor::read into a buffer of length bufLen: reads min(bufLen, remaining)
bytes, never failing. Returns (number of bytes read, bytes read, rest). -/
def cursorRead (bufLen : Nat) (bs : List Nat) : Nat × List Nat × List Nat :=
  let k := min bufLen bs.length
  (k, bs.take k, bs.drop k)

/-- Vec::with_capacity(n) reserves capacity n but produces a vector of
length 0; only its length (0) is observable in this code. -/
def vecWithCapacity (_n : Nat) : List Nat := []

/-- Embedding of Message::to_bytes: tag, then the bytecode length as a u32
(the usize-to-u32 cast wraps modulo 2^32) in little-endian, then the
bytecode. -/
def DeployMessage.to_bytes (m : DeployMessage) : List Nat :=
  MESSAGE_ENCODING_TAG ++ u32ToLeBytes (m.bytecode.length % 4294967296) ++ m.bytecode

/-- Embedding of Message::from_cursor. Reads and checks the 22-byte tag,
reads the 4-byte little-endian declared length, then calls cursor.read on the
buffer created by Vec::with_capacity(bytecode_len) - whose length is 0 - and
demands that the number of bytes actually read equal the declared length.
The buffer after the read is the bytes read followed by the untouched rest of
the buffer. -/
def DeployMessage.from_cursor (bs : List Nat) :
    Except NssaError (DeployMessage × List Nat) :=
  match readExact 22 bs with
  | .error e => .error e
  | .ok (tag, rest1) =>
    if tag ≠ MESSAGE_ENCODING_TAG then
      .error (.transactionDeserializationError "Invalid public message prefix")
    else
      match readExact 4 rest1 with
      | .error e => .error e
      | .ok (word, rest2) =>
        let bytecode_len := u32FromLeBytesList word
        let buf := vecWithCapacity bytecode_len
        let r := cursorRead buf.length rest2
        if r.1 ≠ bytecode_len then
          .error (.transactionDeserializationError "Invalid number of bytes")
        else
          .ok (⟨r.2.1 ++ buf.drop r.1⟩, r.2.2)

/-- Embedding of ProgramDeploymentTransaction::to_bytes. -/
def ProgramDeploymentTransaction.to_bytes (t : ProgramDeploymentTransaction) :
    List Nat :=
  t.message.to_bytes

/-- Embedding of ProgramDeploymentTransaction::from_bytes. -/
def ProgramDeploymentTransaction.from_bytes (bs : List Nat) :
    Except NssaError ProgramDeploymentTransaction :=
  match DeployMessage.from_cursor bs with
  | .error e => .error e
  | .ok (m, _) => .ok ⟨m⟩

end Deploy

namespace KeyTree

/-- Error type of hex decoding, embedding hex::FromHexError; the payload of
the invalid-character case (character and index) is dropped. -/
inductive FromHexError where
  | invalidHexCharacter
  | oddLength
  | invalidStringLength
  deriving DecidableEq

/-- Value of one hex digit given as its ASCII byte, accepting 0-9, a-f and
A-F as the hex crate does. -/
def hexDigitVal (b : Nat) : Option Nat :=
  if 48 ≤ b ∧ b ≤ 57 then some (b - 48)
  else if 97 ≤ b ∧ b ≤ 102 then some (b - 87)
  else if 65 ≤ b ∧ b ≤ 70 then some (b - 55)
  else none

/-- ASCII byte of one lowercase hex digit, as produced by hex::encode. -/
def hexDigitChar (d : Nat) : Nat :=
  if d < 10 then 48 + d else 87 + d

/-- hex::encode: each byte becomes two lowercase hex digit bytes, high
nibble first. -/
def hexEncode : List Nat → List Nat
  | [] => []
  | b :: rest => hexDigitChar (b / 16) :: hexDigitChar (b % 16) :: hexEncode rest

/-- Digit-pair consumption of hex::decode, applied after the even-length
check. -/
def hexDecodePairs : List Nat → Except FromHexError (List Nat)
  | [] => .ok []
  | [_] => .error .oddLength
  | hi :: lo :: rest =>
    match hexDigitVal hi, hexDigitVal lo with
    | some h, some l =>
      match hexDecodePairs rest with
      | .ok bs => .ok ((16 * h + l) :: bs)
      | .error e => .error e
    | _, _ => .error .invalidHexCharacter

/-- hex::decode over the UTF-8 bytes of a string: rejects odd length first,
then decodes digit pairs. -/
def hexDecode (s : List Nat) : Except FromHexError (List Nat) :=
  if s.length % 2 ≠ 0 then .error .oddLength else hexDecodePairs s

/-- Embedding of ChainIndex (src/key_protocol/src/key_management/key_tree.rs):
a finite sequence of u32 components. -/
structure ChainIndex where
  chain : List Nat
  deriving DecidableEq

/-- The loop of ChainIndex::from_str: consume the decoded bytes four at a
time as little-endian u32 words. Only called on byte lists whose length is a
multiple of 4. -/
def wordsFromBytes : List Nat → List Nat
  | b0 :: b1 :: b2 :: b3 :: rest => u32FromLeBytes b0 b1 b2 b3 :: wordsFromBytes rest
  | _ => []

/-- Embedding of ChainIndex::from_str (strings as UTF-8 byte lists): the
empty string is the root index; otherwise hex-decode, require the byte count
to be a multiple of 4, and read little-endian u32 components. -/
def ChainIndex.from_str (s : List Nat) : Except FromHexError ChainIndex :=
  if s = [] then .ok ⟨[]⟩
  else
    match hexDecode s with
    | .error e => .error e
    | .ok bs =>
      if bs.length % 4 ≠ 0 then .error .invalidStringLength
      else .ok ⟨wordsFromBytes bs⟩

/-- The loop of ChainIndex::to_string: concatenate the little-endian bytes of
every component. -/
def leBytesOfWords : List Nat → List Nat
  | [] => []
  | x :: rest => u32ToLeBytes x ++ leBytesOfWords rest

/-- Embedding of ChainIndex::to_string (strings as UTF-8 byte lists). -/
def ChainIndex.to_string (c : ChainIndex) : List Nat :=
  if c.chain = [] then []
  else hexEncode (leBytesOfWords c.chain)

end KeyTree

namespace Accounts

/-- Embedding of AccountAddress (src/accounts/src/account_core/address.rs):
a 32-byte identifier. -/
structure AccountAddress where
  value : List Nat

/-- Embedding of impl From for AccountAddress over a signature public key:
a 32-byte buffer is filled by finalizing a Keccak-256 hasher updated with the
SEC1 bytes of the public key, so the address is exactly the 32-byte digest.
The public key type with its to_sec1_bytes method lives in the external
common crate and the hash in the tiny_keccak crate; both enter as parameters.
Modelled from the spec: to_sec1_bytes is the uncompressed-point encoding of
the public key, and the Keccak-256 digest is 32 bytes long (hypotheses of the
theorems below). -/
def AccountAddress.from_signature_public_key {PublicKey : Type}
    (to_sec1_bytes : PublicKey → List Nat) (keccak256 : List Nat → List Nat)
    (pk : PublicKey) : AccountAddress :=
  ⟨keccak256 (to_sec1_bytes pk)⟩

end Accounts

namespace Nssa

/-- Addresses are opaque fixed-size values for the engine; they are
represented as naturals. -/
abbrev Address := Nat

/-- Public keys of the external signature scheme, opaque to the engine. -/
abbrev PublicKey := Nat

/-- Signatures of the external signature scheme, opaque to the engine. -/
abbrev Signature := Nat

/-- Modelled from the spec: struct Account of the nssa_core account module
(not under src/) - balance: u128, nonce: u128, program_owner: a program
identifier, data: opaque bytes. -/
structure Account where
  balance : Nat
  nonce : Nat
  program_owner : Nat
  data : List Nat

/-- Account::default: the zero-valued account created implicitly on first
reference. -/
def Account.default : Account := ⟨0, 0, 0, []⟩

/-- Modelled from the spec: AccountWithMetadata of the nssa_core account
module (not under src/) - an account snapshot plus its is_authorized flag,
built per transition and never persisted. -/
structure AccountWithMetadata where
  account : Account
  is_authorized : Bool

/-- Modelled from the spec: Message of the public_transaction module (not
under src/) - program id, ordered addresses, ordered nonces, instruction
data. The instruction data is the u128 transfer amount, as the tests of
state.rs construct it. -/
structure Message where
  program_id : Nat
  addresses : List Address
  nonces : List Nat
  instruction_data : Nat

/-- Modelled from the spec: WitnessSet of the public_transaction module (not
under src/) - the ordered (signature, public key) pairs. -/
structure WitnessSet where
  signatures_and_public_keys : List (Signature × PublicKey)

/-- Modelled from the spec: PublicTransaction of the public_transaction
module (not under src/). -/
structure PublicTransaction where
  message : Message
  witness_set : WitnessSet

/-- The public_state of V01State: HashMap from Address to Account, embedded
as a total function where an absent entry holds the default account. This
identification is exact for the observations made by the engine:
get_account_by_address returns the entry or Account::default, and
get_account_by_address_mut inserts the default entry before mutating it,
which is the same function update. -/
abbrev Store := Address → Account

/-- Pointwise store update: the image of HashMap insertion. -/
def Store.update (s : Store) (a : Address) (acc : Account) : Store :=
  fun x => if x = a then acc else s x

/- The signature scheme internals (signature module files other than
src/nssa/src/signature/mod.rs) are not under src/: is_valid_for sig msg pk
embeds Signature::is_valid_for over the canonical message encoding, and
from_public_key embeds Address::from_public_key; both enter as parameters,
so every statement below quantifies over them. -/
variable (is_valid_for : Signature → Message → PublicKey → Bool)
variable (from_public_key : PublicKey → Address)

/-- Modelled from the spec: the fixed identifier of the built-in
authenticated transfer program, the only registered program of V01State; its
concrete value is immaterial here, any fixed natural serves. -/
def AuthenticatedTransferProgram.PROGRAM_ID : Nat := 1

/-- Modelled from the spec: execute_public over the built-in authenticated
transfer program (program module not under src/; spec section 4.2) -
requires exactly two pre-states (sender, recipient), reads the instruction
data as the u128 amount, requires sender.is_authorized and a sufficient
sender balance, and produces the two post-states with the amount moved and
nonce, program_owner and data copied unchanged; any violated precondition is
an ExecutionError. -/
def execute_public (pre_states : List AccountWithMetadata)
    (instruction_data : Nat) : Except Unit (List Account) :=
  match pre_states with
  | [sender, recipient] =>
    if sender.is_authorized = true ∧ instruction_data ≤ sender.account.balance then
      .ok [{ sender.account with balance := sender.account.balance - instruction_data },
           { recipient.account with balance := recipient.account.balance + instruction_data }]
    else .error ()
  | _ => .error ()

/-- Modelled from the spec: validate_constraints of the nssa_core program
module (not under src/; spec section 4.3) - the program-independent default
rule that the total balance over the touched accounts is conserved; no
program id is exempted in the configuration. -/
def validate_constraints (pre_states : List AccountWithMetadata)
    (post_states : List Account) (_program_id : Nat) : Except Unit Unit :=
  if (pre_states.map fun a => a.account.balance).sum =
      (post_states.map fun a => a.balance).sum then .ok ()
  else .error ()

/-- The signer loop of execute_and_verify_public_transaction: for every
((signature, public key), nonce) entry, reject unless the signature is valid
for the message and the stored nonce of the derived address equals the given
nonce exactly, accumulating the derived addresses in order. -/
def check_witnesses (s : Store) (msg : Message) :
    List ((Signature × PublicKey) × Nat) → Except Unit (List Address)
  | [] => .ok []
  | ((sig, pk), nonce) :: rest =>
    if !(is_valid_for sig msg pk) then .error ()
    else
      if (s (from_public_key pk)).nonce ≠ nonce then .error ()
      else
        match check_witnesses s msg rest with
        | .error e => .error e
        | .ok addrs => .ok (from_public_key pk :: addrs)

/-- The pre-state snapshot built by execute_and_verify_public_transaction:
for each address of the message, its stored (or default) account, flagged
authorized when the address occurs among the accumulated authorized
addresses. -/
def pre_states_of (s : Store) (authorized_addresses : List Address)
    (msg : Message) : List AccountWithMetadata :=
  msg.addresses.map (fun address =>
    AccountWithMetadata.mk (s address) (authorized_addresses.contains address))

/-- Embedding of V01State::execute_and_verify_public_transaction
(src/nssa/src/state.rs, lines 46-118). The HashSet cardinality test on the
addresses is rendered through List.dedup; the state diff collected into a
HashMap is kept as the zipped association list (its keys are pairwise
distinct at this point, so the HashMap holds exactly these pairs). The
method reads the store and never writes it. -/
def execute_and_verify_public_transaction (s : Store) (tx : PublicTransaction) :
    Except Unit (List (Address × Account)) :=
  if tx.message.addresses.dedup.length ≠ tx.message.addresses.length then .error ()
  else if tx.message.nonces.length ≠
      tx.witness_set.signatures_and_public_keys.length then
    .error ()
  else
    match check_witnesses is_valid_for from_public_key s tx.message
        (tx.witness_set.signatures_and_public_keys.zip tx.message.nonces) with
    | .error _ => .error ()
    | .ok authorized_addresses =>
      if tx.message.program_id ≠ AuthenticatedTransferProgram.PROGRAM_ID then .error ()
      else
        match execute_public (pre_states_of s authorized_addresses tx.message)
            tx.message.instruction_data with
        | .error _ => .error ()
        | .ok post_states =>
          match validate_constraints (pre_states_of s authorized_addresses tx.message)
              post_states tx.message.program_id with
          | .error _ => .error ()
          | .ok _ =>
            if post_states.length ≠ tx.message.addresses.length then .error ()
            else .ok (tx.message.addresses.zip post_states)

/-- Modelled from the spec: PublicTransaction::signer_addresses (missing
public_transaction module) - the set of addresses derived from the public
keys of the witness set; per spec section 4.4 step 9 every signer-derived
address advances exactly once, hence the deduplication. -/
def signer_addresses (tx : PublicTransaction) : List Address :=
  (tx.witness_set.signatures_and_public_keys.map (fun p => from_public_key p.2)).dedup

/-- The first loop of transition_from_public_transaction: write every
post-state of the diff over its address (replace, not merge). -/
def apply_diff (s : Store) (diff : List (Address × Account)) : Store :=
  diff.foldl (fun st p => st.update p.1 p.2) s

/-- The second loop of transition_from_public_transaction: increment the
stored nonce of every signer address by one. -/
def increment_nonces (s : Store) (addrs : List Address) : Store :=
  addrs.foldl (fun st a => st.update a { st a with nonce := (st a).nonce + 1 }) s

/-- Embedding of V01State::transition_from_public_transaction
(src/nssa/src/state.rs, lines 16-31): validate and execute; on error return
it with the store untouched (the validation performs no writes), on success
apply the diff and then advance the signer nonces. The returned pair is
(call result, store after the call). -/
def transition_from_public_transaction (s : Store) (tx : PublicTransaction) :
    Except Unit Unit × Store :=
  match execute_and_verify_public_transaction is_valid_for from_public_key s tx with
  | .error e => (.error e, s)
  | .ok state_diff =>
    let s1 := apply_diff s state_diff
    let s2 := increment_nonces s1 (signer_addresses from_public_key tx)
    (.ok (), s2)

/-! Concrete fixtures used to instantiate the quantified theorems, mirroring
the tests of state.rs. -/

/-- A signature oracle accepting everything, for concrete instantiations. -/
def sig_always_valid : Signature → Message → PublicKey → Bool := fun _ _ _ => true

/-- A signature oracle rejecting everything, for concrete instantiations. -/
def sig_never_valid : Signature → Message → PublicKey → Bool := fun _ _ _ => false

/-- A concrete key-to-address derivation: the identity on naturals. -/
def addr_id : PublicKey → Address := id

/-- Concrete genesis store mirroring the tests of state.rs: address 1 holds
balance 100 at nonce 0 and is owned by the transfer program; every other
address holds the default account. -/
def genesis_store : Store := fun a => if a = 1 then ⟨100, 0, 1, []⟩ else Account.default

/-- Concrete transfer: the holder of public key 1 (address 1, nonce 0) sends
5 to address 2. -/
def transfer_tx : PublicTransaction := ⟨⟨1, [1, 2], [0], 5⟩, ⟨[(7, 1)]⟩⟩

/-- A transaction naming the duplicate address list [0, 0]. -/
def dup_tx : PublicTransaction := ⟨⟨1, [0, 0], [0], 0⟩, ⟨[(7, 1)]⟩⟩

/-- A structurally sound transaction whose program id 9 is not the transfer
program id. -/
def prog_tx : PublicTransaction := ⟨⟨9, [1, 2], [0], 5⟩, ⟨[(7, 1)]⟩⟩

/-- A transfer whose message nonce 5 differs from the stored nonce 0 of the
signer address. -/
def stale_tx : PublicTransaction := ⟨⟨1, [1, 2], [5], 5⟩, ⟨[(7, 1)]⟩⟩

end Nssa

/-! Auxiliary lemmas. Definitions end here; everything below is a theorem. -/

theorem u32_le_bytes_roundtrip (x : Nat) (hx : x < 4294967296) :
    u32FromLeBytesList (u32ToLeBytes x) = x := by
  simp only [u32ToLeBytes, u32FromLeBytesList, u32FromLeBytes]
  omega

theorem u32ToLeBytes_length (x : Nat) : (u32ToLeBytes x).length = 4 := rfl

theorem u32ToLeBytes_lt (x : Nat) : ∀ b ∈ u32ToLeBytes x, b < 256 := by
  intro b hb
  simp only [u32ToLeBytes, List.mem_cons, List.not_mem_nil, or_false] at hb
  rcases hb with h | h | h | h <;> subst h <;> omega

namespace KeyTree

theorem hexDigitVal_hexDigitChar (d : Nat) (hd : d < 16) :
    hexDigitVal (hexDigitChar d) = some d := by
  unfold hexDigitChar hexDigitVal
  split_ifs <;> simp_all <;> omega

theorem hexEncode_length (bs : List Nat) : (hexEncode bs).length = 2 * bs.length := by
  induction bs with
  | nil => rfl
  | cons b rest ih =>
    simp [hexEncode, ih]
    omega

theorem hexDecodePairs_hexEncode (bs : List Nat) (h : ∀ b ∈ bs, b < 256) :
    hexDecodePairs (hexEncode bs) = .ok bs := by
  induction bs with
  | nil => rfl
  | cons b rest ih =>
    have hb : b < 256 := h b (List.mem_cons_self b rest)
    have h1 : b / 16 < 16 := by omega
    have h2 : b % 16 < 16 := by omega
    have hrest : ∀ x ∈ rest, x < 256 := fun x hx => h x (List.mem_cons_of_mem b hx)
    simp only [hexEncode, hexDecodePairs, hexDigitVal_hexDigitChar _ h1,
      hexDigitVal_hexDigitChar _ h2, ih hrest]
    rw [Nat.div_add_mod]

theorem hexDecode_hexEncode (bs : List Nat) (h : ∀ b ∈ bs, b < 256) :
    hexDecode (hexEncode bs) = .ok bs := by
  unfold hexDecode
  rw [hexEncode_length]
  simp [Nat.mul_mod_right, hexDecodePairs_hexEncode bs h]

theorem leBytesOfWords_length (c : List Nat) :
    (leBytesOfWords c).length = 4 * c.length := by
  induction c with
  | nil => rfl
  | cons x rest ih =>
    simp [leBytesOfWords, u32ToLeBytes, ih]
    omega

theorem leBytesOfWords_lt (c : List Nat) : ∀ b ∈ leBytesOfWords c, b < 256 := by
  induction c with
  | nil =>
    intro b hb
    cases hb
  | cons x rest ih =>
    intro b hb
    rcases List.mem_append.mp hb with h | h
    · exact u32ToLeBytes_lt x b h
    · exact ih b h

theorem wordsFromBytes_leBytesOfWords (c : List Nat) (h : ∀ x ∈ c, x < 4294967296) :
    wordsFromBytes (leBytesOfWords c) = c := by
  induction c with
  | nil => rfl
  | cons x rest ih =>
    have hx : x < 4294967296 := h x (List.mem_cons_self x rest)
    have hrest : ∀ y ∈ rest, y < 4294967296 := fun y hy => h y (List.mem_cons_of_mem x hy)
    have hhead : u32FromLeBytes (x % 256) (x / 256 % 256) (x / 65536 % 256)
        (x / 16777216 % 256) = x := by
      unfold u32FromLeBytes
      omega
    show wordsFromBytes (u32ToLeBytes x ++ leBytesOfWords rest) = x :: rest
    simp only [u32ToLeBytes, List.cons_append, List.nil_append]
    show u32FromLeBytes _ _ _ _ :: wordsFromBytes (leBytesOfWords rest) = x :: rest
    rw [hhead, ih hrest]

theorem toString_roundtrip (c : ChainIndex) (h : ∀ x ∈ c.chain, x < 4294967296) :
    ChainIndex.from_str (ChainIndex.to_string c) = .ok c := by
  obtain ⟨l⟩ := c
  by_cases hl : l = []
  · subst hl
    rfl
  · have hlen : (hexEncode (leBytesOfWords l)).length = 8 * l.length := by
      rw [hexEncode_length, leBytesOfWords_length]
      ring
    have hne : hexEncode (leBytesOfWords l) ≠ [] := by
      intro he
      rw [he] at hlen
      simp only [List.length_nil] at hlen
      have h0 : l.length = 0 := by omega
      exact hl (List.length_eq_zero.mp h0)
    show ChainIndex.from_str (ChainIndex.to_string ⟨l⟩) = .ok ⟨l⟩
    unfold ChainIndex.to_string
    simp only [if_neg hl]
    unfold ChainIndex.from_str
    rw [if_neg hne, hexDecode_hexEncode _ (leBytesOfWords_lt l)]
    simp [leBytesOfWords_length, Nat.mul_mod_right, wordsFromBytes_leBytesOfWords l h]

theorem from_str_ok_iff (s : List Nat) :
    (∃ c, ChainIndex.from_str s = .ok c) ↔
    (∃ bs, hexDecode s = .ok bs ∧ bs.length % 4 = 0) := by
  by_cases hs : s = []
  · subst hs
    constructor
    · intro _
      exact ⟨[], rfl, rfl⟩
    · intro _
      exact ⟨⟨[]⟩, rfl⟩
  · unfold ChainIndex.from_str
    rw [if_neg hs]
    cases hdec : hexDecode s with
    | error e => simp
    | ok bs =>
      by_cases h4 : bs.length % 4 = 0
      · simp [h4]
      · simp [h4]

end KeyTree

namespace Nssa

theorem dedup_length_eq_iff_nodup (l : List Address) :
    l.dedup.length = l.length ↔ l.Nodup := by
  constructor
  · intro h
    rw [← List.dedup_eq_self]
    exact (List.dedup_sublist l).eq_of_length h
  · intro h
    rw [List.dedup_eq_self.mpr h]

theorem transition_of_verify_error (sv : Signature → Message → PublicKey → Bool)
    (af : PublicKey → Address) (s : Store) (tx : PublicTransaction) (e : Unit)
    (h : execute_and_verify_public_transaction sv af s tx = .error e) :
    transition_from_public_transaction sv af s tx = (.error e, s) := by
  unfold transition_from_public_transaction
  rw [h]

theorem check_witnesses_error_of_mismatch (sv : Signature → Message → PublicKey → Bool)
    (af : PublicKey → Address) (s : Store) (msg : Message)
    (l : List ((Signature × PublicKey) × Nat))
    (h : ∃ entry ∈ l, (s (af entry.1.2)).nonce ≠ entry.2) :
    check_witnesses sv af s msg l = .error () := by
  induction l with
  | nil =>
    rcases h with ⟨e, he, _⟩
    cases he
  | cons hd tl ih =>
    obtain ⟨⟨⟨sig, pk⟩, nonce⟩, hmem, hne⟩ := h
    rcases List.mem_cons.mp hmem with heq | htl
    · subst heq
      unfold check_witnesses
      cases hsv : sv sig msg pk with
      | false => simp [hsv]
      | true =>
        simp only [hsv, Bool.not_true, Bool.false_eq_true, if_false]
        rw [if_pos hne]
    · obtain ⟨⟨sig0, pk0⟩, nonce0⟩ := hd
      unfold check_witnesses
      cases hsv : sv sig0 msg pk0 with
      | false => simp [hsv]
      | true =>
        simp only [hsv, Bool.not_true, Bool.false_eq_true, if_false]
        by_cases hn0 : (s (af pk0)).nonce ≠ nonce0
        · rw [if_pos hn0]
        · rw [if_neg hn0, ih ⟨_, htl, hne⟩]

theorem execute_public_ok (pres : List AccountWithMetadata) (amt : Nat)
    (posts : List Account) (h : execute_public pres amt = .ok posts) :
    posts.map Account.nonce = pres.map (fun p => p.account.nonce) ∧
    posts.length = pres.length := by
  unfold execute_public at h
  split at h
  · rename_i sender recipient
    split at h
    · injection h with h
      subst h
      simp
    · simp at h
  · simp at h

theorem validate_constraints_ok (pres : List AccountWithMetadata)
    (posts : List Account) (pid : Nat)
    (h : validate_constraints pres posts pid = .ok ()) :
    (pres.map fun a => a.account.balance).sum = (posts.map fun a => a.balance).sum := by
  unfold validate_constraints at h
  split at h
  · assumption
  · simp at h

theorem pre_states_of_nonces (s : Store) (auth : List Address) (msg : Message) :
    (pre_states_of s auth msg).map (fun p => p.account.nonce) =
      msg.addresses.map (fun a => (s a).nonce) := by
  unfold pre_states_of
  rw [List.map_map]
  rfl

theorem pre_states_of_balances (s : Store) (auth : List Address) (msg : Message) :
    (pre_states_of s auth msg).map (fun p => p.account.balance) =
      msg.addresses.map (fun a => (s a).balance) := by
  unfold pre_states_of
  rw [List.map_map]
  rfl

theorem verify_ok_spec (sv : Signature → Message → PublicKey → Bool)
    (af : PublicKey → Address) (s : Store) (tx : PublicTransaction)
    (diff : List (Address × Account))
    (h : execute_and_verify_public_transaction sv af s tx = .ok diff) :
    ∃ posts : List Account,
      diff = tx.message.addresses.zip posts ∧
      posts.length = tx.message.addresses.length ∧
      posts.map Account.nonce = tx.message.addresses.map (fun a => (s a).nonce) ∧
      (posts.map fun a => a.balance).sum =
        (tx.message.addresses.map (fun a => (s a).balance)).sum ∧
      tx.message.addresses.Nodup := by
  unfold execute_and_verify_public_transaction at h
  by_cases h1 : tx.message.addresses.dedup.length ≠ tx.message.addresses.length
  · rw [if_pos h1] at h
    simp at h
  rw [if_neg h1] at h
  by_cases h2 : tx.message.nonces.length ≠
      tx.witness_set.signatures_and_public_keys.length
  · rw [if_pos h2] at h
    simp at h
  rw [if_neg h2] at h
  cases hcw : check_witnesses sv af s tx.message
      (tx.witness_set.signatures_and_public_keys.zip tx.message.nonces) with
  | error e =>
    rw [hcw] at h
    simp at h
  | ok auth =>
    rw [hcw] at h
    simp only at h
    by_cases h3 : tx.message.program_id ≠ AuthenticatedTransferProgram.PROGRAM_ID
    · rw [if_pos h3] at h
      simp at h
    rw [if_neg h3] at h
    cases hex : execute_public (pre_states_of s auth tx.message)
        tx.message.instruction_data with
    | error e =>
      rw [hex] at h
      simp at h
    | ok posts =>
      rw [hex] at h
      simp only at h
      cases hvc : validate_constraints (pre_states_of s auth tx.message) posts
          tx.message.program_id with
      | error e =>
        rw [hvc] at h
        simp at h
      | ok u =>
        cases u
        rw [hvc] at h
        simp only at h
        by_cases h4 : posts.length ≠ tx.message.addresses.length
        · rw [if_pos h4] at h
          simp at h
        rw [if_neg h4] at h
        injection h with h
        obtain ⟨hnon, hlen⟩ := execute_public_ok _ _ _ hex
        have hbal := validate_constraints_ok _ _ _ hvc
        refine ⟨posts, h.symm, by omega, ?_, ?_, ?_⟩
        · rw [hnon, pre_states_of_nonces]
        · rw [← hbal, pre_states_of_balances]
        · exact (dedup_length_eq_iff_nodup _).mp (by omega)

theorem transition_of_verify_ok (sv : Signature → Message → PublicKey → Bool)
    (af : PublicKey → Address) (s : Store) (tx : PublicTransaction)
    (diff : List (Address × Account))
    (h : execute_and_verify_public_transaction sv af s tx = .ok diff) :
    transition_from_public_transaction sv af s tx =
      (.ok (), increment_nonces (apply_diff s diff) (signer_addresses af tx)) := by
  unfold transition_from_public_transaction
  rw [h]

theorem transition_snd_of_verify_ok (sv : Signature → Message → PublicKey → Bool)
    (af : PublicKey → Address) (s : Store) (tx : PublicTransaction)
    (diff : List (Address × Account))
    (h : execute_and_verify_public_transaction sv af s tx = .ok diff) :
    (transition_from_public_transaction sv af s tx).2 =
      increment_nonces (apply_diff s diff) (signer_addresses af tx) := by
  rw [transition_of_verify_ok sv af s tx diff h]

theorem apply_diff_not_mem (s : Store) (diff : List (Address × Account)) (x : Address)
    (hx : ∀ p ∈ diff, p.1 ≠ x) : apply_diff s diff x = s x := by
  induction diff generalizing s with
  | nil => rfl
  | cons p rest ih =>
    show apply_diff (s.update p.1 p.2) rest x = s x
    rw [ih _ (fun q hq => hx q (List.mem_cons_of_mem p hq))]
    unfold Store.update
    rw [if_neg (fun he => hx p (List.mem_cons_self p rest) he.symm)]

theorem apply_diff_nonce (diff : List (Address × Account)) (s : Store)
    (h : ∀ p ∈ diff, p.2.nonce = (s p.1).nonce) (x : Address) :
    (apply_diff s diff x).nonce = (s x).nonce := by
  induction diff generalizing s with
  | nil => rfl
  | cons p rest ih =>
    have hp : p.2.nonce = (s p.1).nonce := h p (List.mem_cons_self p rest)
    have hs : ∀ y, ((s.update p.1 p.2) y).nonce = (s y).nonce := by
      intro y
      unfold Store.update
      by_cases hy : y = p.1
      · rw [if_pos hy, hy, hp]
      · rw [if_neg hy]
    show (apply_diff (s.update p.1 p.2) rest x).nonce = (s x).nonce
    rw [ih (s.update p.1 p.2)
      (fun q hq => by
        rw [hs q.1]
        exact h q (List.mem_cons_of_mem p hq)) ]
    exact hs x

theorem apply_diff_zip_map (as : List Address) (posts : List Account) (s : Store)
    (hnd : as.Nodup) (hlen : posts.length = as.length) :
    as.map (apply_diff s (as.zip posts)) = posts := by
  induction as generalizing posts s with
  | nil =>
    cases posts with
    | nil => rfl
    | cons _ _ => simp at hlen
  | cons a rest ih =>
    cases posts with
    | nil => simp at hlen
    | cons acc posts2 =>
      have hna : a ∉ rest := (List.nodup_cons.mp hnd).1
      have hnd2 : rest.Nodup := (List.nodup_cons.mp hnd).2
      have hlen2 : posts2.length = rest.length := by
        simp only [List.length_cons] at hlen
        omega
      show (a :: rest).map (apply_diff (s.update a acc) (rest.zip posts2)) =
        acc :: posts2
      rw [List.map_cons]
      congr 1
      · rw [apply_diff_not_mem]
        · unfold Store.update
          rw [if_pos rfl]
        · intro p hp hpa
          exact hna (hpa ▸ (List.of_mem_zip hp).1)
      · exact ih posts2 (s.update a acc) hnd2 hlen2

theorem increment_nonces_not_mem (addrs : List Address) (s : Store) (x : Address)
    (hx : x ∉ addrs) : increment_nonces s addrs x = s x := by
  induction addrs generalizing s with
  | nil => rfl
  | cons a rest ih =>
    show increment_nonces (s.update a { s a with nonce := (s a).nonce + 1 }) rest x = s x
    rw [ih _ (fun h => hx (List.mem_cons_of_mem a h))]
    unfold Store.update
    rw [if_neg]
    intro he
    subst he
    exact hx (List.mem_cons_self x rest)

theorem increment_nonces_balance (addrs : List Address) (s : Store) (x : Address) :
    (increment_nonces s addrs x).balance = (s x).balance := by
  induction addrs generalizing s with
  | nil => rfl
  | cons a rest ih =>
    show (increment_nonces (s.update a { s a with nonce := (s a).nonce + 1 }) rest x).balance
      = (s x).balance
    rw [ih]
    unfold Store.update
    by_cases hy : x = a
    · rw [if_pos hy, hy]
    · rw [if_neg hy]

theorem increment_nonces_nonce_mem (addrs : List Address) (s : Store) (x : Address)
    (hnd : addrs.Nodup) (hx : x ∈ addrs) :
    (increment_nonces s addrs x).nonce = (s x).nonce + 1 := by
  induction addrs generalizing s with
  | nil => cases hx
  | cons a rest ih =>
    show (increment_nonces (s.update a { s a with nonce := (s a).nonce + 1 }) rest x).nonce
      = (s x).nonce + 1
    rcases List.mem_cons.mp hx with he | hmem
    · subst he
      rw [increment_nonces_not_mem _ _ _ (List.nodup_cons.mp hnd).1]
      unfold Store.update
      rw [if_pos rfl]
    · have hne : x ≠ a := by
        intro he
        subst he
        exact (List.nodup_cons.mp hnd).1 hmem
      rw [ih _ (List.nodup_cons.mp hnd).2 hmem]
      unfold Store.update
      rw [if_neg hne]

theorem zip_snd_nonce (s : Store) : ∀ (as : List Address) (posts : List Account),
    posts.map Account.nonce = as.map (fun a => (s a).nonce) →
    ∀ p ∈ as.zip posts, p.2.nonce = (s p.1).nonce := by
  intro as
  induction as with
  | nil =>
    intro posts h p hp
    cases hp
  | cons a rest ih =>
    intro posts h p hp
    cases posts with
    | nil => cases hp
    | cons acc posts2 =>
      simp only [List.map_cons, List.cons.injEq] at h
      rw [List.zip_cons_cons] at hp
      rcases List.mem_cons.mp hp with he | hm
      · subst he
        exact h.1
      · exact ih posts2 h.2 p hm

end Nssa

/-! Claim theorems. -/

namespace Nssa

/-- C1: for every state and public transaction, a rejected transition call
leaves the account store exactly equal to its pre-call state - no balance,
nonce, program_owner or data changes and no new entry is observable. -/
theorem rejection_leaves_store_unchanged
    (is_valid_for : Signature → Message → PublicKey → Bool)
    (from_public_key : PublicKey → Address)
    (s : Store) (tx : PublicTransaction) (e : Unit)
    (h : (transition_from_public_transaction is_valid_for from_public_key s tx).1 =
      .error e) :
    (transition_from_public_transaction is_valid_for from_public_key s tx).2 = s := by
  cases hv : execute_and_verify_public_transaction is_valid_for from_public_key s tx with
  | error e2 => rw [transition_of_verify_error _ _ _ _ _ hv]
  | ok diff =>
    rw [transition_of_verify_ok _ _ _ _ _ hv] at h
    simp at h

/-- C1 witness: a concrete rejected transaction leaving the genesis store
untouched. -/
theorem rejection_leaves_store_unchanged_witness :
    (transition_from_public_transaction sig_always_valid addr_id genesis_store dup_tx).1 =
      .error () ∧
    (transition_from_public_transaction sig_always_valid addr_id genesis_store dup_tx).2 =
      genesis_store :=
  ⟨rfl, rejection_leaves_store_unchanged sig_always_valid addr_id genesis_store dup_tx
    () rfl⟩

/-- C2: on a successful transition the stored nonce of every address derived
from a witness-set public key increases by exactly 1 - also when that
address is outside message.addresses and when a public key repeats - and
the nonce of every address derived from no witness-set public key is
unchanged. -/
theorem success_nonce_update
    (is_valid_for : Signature → Message → PublicKey → Bool)
    (from_public_key : PublicKey → Address)
    (s : Store) (tx : PublicTransaction)
    (h : (transition_from_public_transaction is_valid_for from_public_key s tx).1 =
      .ok ()) :
    (∀ x : Address,
      (∃ p ∈ tx.witness_set.signatures_and_public_keys, from_public_key p.2 = x) →
      ((transition_from_public_transaction is_valid_for from_public_key s tx).2 x).nonce =
        (s x).nonce + 1) ∧
    (∀ x : Address,
      (∀ p ∈ tx.witness_set.signatures_and_public_keys, from_public_key p.2 ≠ x) →
      ((transition_from_public_transaction is_valid_for from_public_key s tx).2 x).nonce =
        (s x).nonce) := by
  cases hv : execute_and_verify_public_transaction is_valid_for from_public_key s tx with
  | error e =>
    rw [transition_of_verify_error _ _ _ _ _ hv] at h
    simp at h
  | ok diff =>
    obtain ⟨posts, hdiff, hlen, hnon, hbal, hnd⟩ := verify_ok_spec _ _ _ _ _ hv
    have hpost := transition_snd_of_verify_ok _ _ _ _ _ hv
    have hdn : ∀ p ∈ diff, p.2.nonce = (s p.1).nonce := by
      subst hdiff
      exact zip_snd_nonce s _ _ hnon
    have hsnd : (signer_addresses from_public_key tx).Nodup := by
      unfold signer_addresses
      exact List.nodup_dedup _
    constructor
    · intro x hx
      have hxm : x ∈ signer_addresses from_public_key tx := by
        unfold signer_addresses
        rw [List.mem_dedup, List.mem_map]
        obtain ⟨p, hp, he⟩ := hx
        exact ⟨p, hp, he⟩
      rw [hpost, increment_nonces_nonce_mem _ _ _ hsnd hxm,
        apply_diff_nonce _ _ hdn]
    · intro x hx
      have hxm : x ∉ signer_addresses from_public_key tx := by
        unfold signer_addresses
        rw [List.mem_dedup, List.mem_map]
        rintro ⟨p, hp, he⟩
        exact hx p hp he
      rw [hpost, increment_nonces_not_mem _ _ _ hxm, apply_diff_nonce _ _ hdn]

/-- C2 witness: the concrete transfer advances the signer nonce from 0 to 1
and keeps the recipient nonce at 0. -/
theorem success_nonce_update_witness :
    (transition_from_public_transaction sig_always_valid addr_id genesis_store
      transfer_tx).1 = .ok () ∧
    ((transition_from_public_transaction sig_always_valid addr_id genesis_store
      transfer_tx).2 1).nonce = (genesis_store 1).nonce + 1 ∧
    ((transition_from_public_transaction sig_always_valid addr_id genesis_store
      transfer_tx).2 2).nonce = (genesis_store 2).nonce :=
  ⟨rfl,
    (success_nonce_update sig_always_valid addr_id genesis_store transfer_tx rfl).1 1
      ⟨(7, 1), List.mem_cons_self _ _, rfl⟩,
    (success_nonce_update sig_always_valid addr_id genesis_store transfer_tx rfl).2 2
      (by decide)⟩

/-- C4: a stored nonce differing from the message nonce at any signer index,
in either direction, rejects the transaction and mutates nothing; in
particular resubmitting an applied transaction is rejected. -/
theorem nonce_mismatch_rejects
    (is_valid_for : Signature → Message → PublicKey → Bool)
    (from_public_key : PublicKey → Address)
    (s : Store) (tx : PublicTransaction) (i : Nat)
    (hi : i < tx.witness_set.signatures_and_public_keys.length)
    (hj : i < tx.message.nonces.length)
    (hne : (s (from_public_key (tx.witness_set.signatures_and_public_keys[i]).2)).nonce ≠
      tx.message.nonces[i]) :
    transition_from_public_transaction is_valid_for from_public_key s tx =
      (.error (), s) := by
  apply transition_of_verify_error
  unfold execute_and_verify_public_transaction
  by_cases h1 : tx.message.addresses.dedup.length ≠ tx.message.addresses.length
  · rw [if_pos h1]
  rw [if_neg h1]
  by_cases h2 : tx.message.nonces.length ≠
      tx.witness_set.signatures_and_public_keys.length
  · rw [if_pos h2]
  rw [if_neg h2]
  have hzlen : i <
      (tx.witness_set.signatures_and_public_keys.zip tx.message.nonces).length := by
    rw [List.length_zip]
    omega
  have hmem : (tx.witness_set.signatures_and_public_keys[i], tx.message.nonces[i]) ∈
      tx.witness_set.signatures_and_public_keys.zip tx.message.nonces := by
    have hget : (tx.witness_set.signatures_and_public_keys.zip tx.message.nonces)[i] =
        (tx.witness_set.signatures_and_public_keys[i], tx.message.nonces[i]) :=
      List.getElem_zip
    rw [← hget]
    exact List.getElem_mem _
  rw [check_witnesses_error_of_mismatch is_valid_for from_public_key s tx.message _
    ⟨_, hmem, hne⟩]

/-- C4 witness: a transfer submitted at nonce 5 against a stored nonce 0 is
rejected with the store untouched. -/
theorem nonce_mismatch_rejects_witness :
    (genesis_store (addr_id (stale_tx.witness_set.signatures_and_public_keys[0]).2)).nonce ≠
      stale_tx.message.nonces[0] ∧
    transition_from_public_transaction sig_always_valid addr_id genesis_store stale_tx =
      (.error (), genesis_store) :=
  ⟨by decide,
    nonce_mismatch_rejects sig_always_valid addr_id genesis_store stale_tx 0
      (by decide) (by decide) (by decide)⟩

/-- C5: duplicate message addresses, or a nonce count differing from the
witness count, reject the transaction for every signature oracle alike - the
structural rejection does not depend on any signature verification. -/
theorem structural_rejection_before_signatures
    (from_public_key : PublicKey → Address)
    (s : Store) (tx : PublicTransaction)
    (h : ¬ tx.message.addresses.Nodup ∨
      tx.message.nonces.length ≠ tx.witness_set.signatures_and_public_keys.length) :
    ∀ is_valid_for : Signature → Message → PublicKey → Bool,
      transition_from_public_transaction is_valid_for from_public_key s tx =
        (.error (), s) := by
  intro sv
  apply transition_of_verify_error
  unfold execute_and_verify_public_transaction
  rcases h with hdup | hlen
  · have h1 : tx.message.addresses.dedup.length ≠ tx.message.addresses.length :=
      fun he => hdup ((dedup_length_eq_iff_nodup _).mp he)
    rw [if_pos h1]
  · by_cases h1 : tx.message.addresses.dedup.length ≠ tx.message.addresses.length
    · rw [if_pos h1]
    · rw [if_neg h1, if_pos hlen]

/-- C5 witness: the [0, 0] transfer is rejected even under the oracle that
declares every signature invalid, so no signature check decided it. -/
theorem structural_rejection_before_signatures_witness :
    ¬ dup_tx.message.addresses.Nodup ∧
    transition_from_public_transaction sig_never_valid addr_id genesis_store dup_tx =
      (.error (), genesis_store) :=
  ⟨by decide,
    structural_rejection_before_signatures addr_id genesis_store dup_tx
      (Or.inl (by decide)) sig_never_valid⟩

/-- C6: a successful transition conserves the sum of balances over the
touched accounts (the accounts at message.addresses). -/
theorem success_conserves_touched_balance
    (is_valid_for : Signature → Message → PublicKey → Bool)
    (from_public_key : PublicKey → Address)
    (s : Store) (tx : PublicTransaction)
    (h : (transition_from_public_transaction is_valid_for from_public_key s tx).1 =
      .ok ()) :
    (tx.message.addresses.map (fun a =>
      ((transition_from_public_transaction is_valid_for from_public_key s tx).2
        a).balance)).sum =
    (tx.message.addresses.map (fun a => (s a).balance)).sum := by
  cases hv : execute_and_verify_public_transaction is_valid_for from_public_key s tx with
  | error e =>
    rw [transition_of_verify_error _ _ _ _ _ hv] at h
    simp at h
  | ok diff =>
    obtain ⟨posts, hdiff, hlen, hnon, hbal, hnd⟩ := verify_ok_spec _ _ _ _ _ hv
    have hpost := transition_snd_of_verify_ok _ _ _ _ _ hv
    rw [hpost]
    have h1 : tx.message.addresses.map (fun a =>
        ((increment_nonces (apply_diff s diff)
          (signer_addresses from_public_key tx)) a).balance) =
        tx.message.addresses.map (fun a => ((apply_diff s diff) a).balance) :=
      List.map_congr_left (fun a _ => increment_nonces_balance _ _ a)
    rw [h1]
    have h3 : tx.message.addresses.map (apply_diff s diff) = posts := by
      rw [hdiff]
      exact apply_diff_zip_map _ _ _ hnd hlen
    have h4 : tx.message.addresses.map (fun a => ((apply_diff s diff) a).balance) =
        posts.map (fun p => p.balance) := by
      rw [← h3, List.map_map]
      rfl
    rw [h4, hbal]

/-- C6 witness: the concrete transfer of 5 keeps the touched balance sum at
100. -/
theorem success_conserves_touched_balance_witness :
    (transition_from_public_transaction sig_always_valid addr_id genesis_store
      transfer_tx).1 = .ok () ∧
    (transfer_tx.message.addresses.map (fun a =>
      ((transition_from_public_transaction sig_always_valid addr_id genesis_store
        transfer_tx).2 a).balance)).sum =
    (transfer_tx.message.addresses.map (fun a => (genesis_store a).balance)).sum :=
  ⟨rfl, success_conserves_touched_balance sig_always_valid addr_id genesis_store
    transfer_tx rfl⟩

/-- C7 counterexample: one transaction rejected by the duplicate-address
structural check and one structurally sound transaction rejected by the
program lookup produce equal results - the unit error type of
transition_from_public_transaction cannot distinguish failure kinds. -/
theorem rejection_reasons_indistinguishable :
    transition_from_public_transaction sig_always_valid addr_id genesis_store dup_tx =
      transition_from_public_transaction sig_always_valid addr_id genesis_store
        prog_tx ∧
    (transition_from_public_transaction sig_always_valid addr_id genesis_store
      dup_tx).1 = .error () ∧
    ¬ dup_tx.message.addresses.Nodup ∧
    prog_tx.message.addresses.Nodup ∧
    prog_tx.message.nonces.length =
      prog_tx.witness_set.signatures_and_public_keys.length ∧
    prog_tx.message.program_id ≠ AuthenticatedTransferProgram.PROGRAM_ID :=
  ⟨rfl, rfl, by decide, by decide, rfl, by decide⟩

/-- C7 amended: every rejection is surfaced to the caller as an error result
- the call returns ok-unit on success and error-unit on every rejection, so
no failure is silently swallowed - but the error carries no kind: every
rejected transaction yields the same unit error value. -/
theorem transition_result_is_unit_valued
    (is_valid_for : Signature → Message → PublicKey → Bool)
    (from_public_key : PublicKey → Address)
    (s : Store) (tx : PublicTransaction) :
    (transition_from_public_transaction is_valid_for from_public_key s tx).1 = .ok () ∨
    (transition_from_public_transaction is_valid_for from_public_key s tx).1 =
      .error () := by
  cases h : (transition_from_public_transaction is_valid_for from_public_key s tx).1 with
  | ok u =>
    cases u
    exact Or.inl rfl
  | error u =>
    cases u
    exact Or.inr rfl

end Nssa

/-- C3: code-bug evidence. Encoding the one-byte deployment message and
decoding it back fails with the "Invalid number of bytes" error instead of
returning the message, because from_cursor reads into the zero-length buffer
made by Vec::with_capacity; only the empty bytecode round-trips. -/
theorem deploy_decode_encode_fails_on_nonempty :
    Deploy.ProgramDeploymentTransaction.from_bytes
        (Deploy.ProgramDeploymentTransaction.to_bytes ⟨⟨[1]⟩⟩) =
      .error (.transactionDeserializationError "Invalid number of bytes") ∧
    Deploy.ProgramDeploymentTransaction.from_bytes
        (Deploy.ProgramDeploymentTransaction.to_bytes ⟨⟨[]⟩⟩) = .ok ⟨⟨[]⟩⟩ :=
  ⟨rfl, rfl⟩

/-- C8: gas_deploy returns the u64 product of the per-byte deploy fee and
the bytecode length exactly when that product is strictly below the deploy
limit, and nothing otherwise - a fee equal to the limit is refused. -/
theorem gas_deploy_limit_gating (c : Gas.GasCalculator) (elf : List Nat) :
    (c.gas_deploy elf =
        some (c.gas_fee_per_byte_deploy * elf.length % 18446744073709551616) ↔
      c.gas_fee_per_byte_deploy * elf.length % 18446744073709551616 <
        c.gas_limit_deploy) ∧
    (c.gas_deploy elf = none ↔
      c.gas_limit_deploy ≤
        c.gas_fee_per_byte_deploy * elf.length % 18446744073709551616) := by
  unfold Gas.GasCalculator.gas_deploy
  simp only []
  split_ifs with hlt
  · constructor
    · constructor
      · intro _
        exact hlt
      · intro _
        rfl
    · constructor
      · intro hn
        cases hn
      · intro hle
        exact absurd hlt (not_lt.mpr hle)
  · constructor
    · constructor
      · intro hn
        cases hn
      · intro h
        exact absurd h hlt
    · constructor
      · intro _
        exact not_lt.mp hlt
      · intro _
        rfl

/-- C9: the address derived from a public key equals the first 32 bytes of
the Keccak-256 digest of its SEC1 (per the spec, uncompressed-point)
encoding, the whole 32-byte digest. -/
theorem address_is_keccak_digest {PublicKey : Type}
    (to_sec1_bytes : PublicKey → List Nat) (keccak256 : List Nat → List Nat)
    (pk : PublicKey) (hlen : (keccak256 (to_sec1_bytes pk)).length = 32) :
    Accounts.AccountAddress.from_signature_public_key to_sec1_bytes keccak256 pk =
      ⟨(keccak256 (to_sec1_bytes pk)).take 32⟩ ∧
    (Accounts.AccountAddress.from_signature_public_key to_sec1_bytes keccak256
      pk).value.length = 32 := by
  constructor
  · unfold Accounts.AccountAddress.from_signature_public_key
    congr 1
    exact (List.take_of_length_le (le_of_eq hlen)).symm
  · exact hlen

/-- C9 witness: a concrete 32-byte digest function. -/
theorem address_is_keccak_digest_witness :
    Accounts.AccountAddress.from_signature_public_key (fun _ : Nat => ([] : List Nat))
        (fun _ => List.replicate 32 0) 0 =
      ⟨((fun _ : List Nat => List.replicate 32 0) (([] : List Nat))).take 32⟩ :=
  (address_is_keccak_digest (fun _ : Nat => ([] : List Nat))
    (fun _ => List.replicate 32 0) 0 (by simp)).1

/-- C10: parsing the string rendering of any chain index recovers it
exactly, and from_str succeeds on a string exactly when it hex-decodes to a
byte sequence whose length is a multiple of 4 (the empty string giving the
root index). -/
theorem chain_index_codec_roundtrip :
    (∀ c : KeyTree.ChainIndex, (∀ x ∈ c.chain, x < 4294967296) →
      KeyTree.ChainIndex.from_str (KeyTree.ChainIndex.to_string c) = .ok c) ∧
    (∀ s : List Nat,
      (∃ c, KeyTree.ChainIndex.from_str s = .ok c) ↔
      (∃ bs, KeyTree.hexDecode s = .ok bs ∧ bs.length % 4 = 0)) :=
  ⟨KeyTree.toString_roundtrip, KeyTree.from_str_ok_iff⟩

/-- C10 witness: the index [257] renders to "01010000" and parses back, as
in the tests of key_tree.rs. -/
theorem chain_index_codec_roundtrip_witness :
    KeyTree.ChainIndex.from_str (KeyTree.ChainIndex.to_string ⟨[257]⟩) = .ok ⟨[257]⟩ :=
  chain_index_codec_roundtrip.1 ⟨[257]⟩ (by decide)
